import Mathlib

/-!
Shallow embedding of the two scripts of this repository
(`src/publish.py` and `src/convert_to_vector.py`) and proofs about the
behaviour their specification describes.

Strings are modelled as `List Char`.  Python's `re` module behaviour for
the two concrete patterns the publisher uses, Python's `int()` parsing,
`str.split('.')` and `str.strip()` are translated directly from their
(C)Python semantics; character classes are modelled over ASCII (the
manifests and patterns involved are ASCII text).
-/

namespace PubSpec

/-- Character test for Python's regex class under `\s` restricted to ASCII:
space, tab, newline, carriage return, vertical tab, form feed.  The same
set serves as the ASCII model of the whitespace stripped by `str.strip()`
and by `int()`. -/
def isReWs (c : Char) : Bool :=
  c = ' ' || c = '\t' || c = '\n' || c = '\r' || c = '\x0b' || c = '\x0c'

/-- Character test for a single or double quote, the class written
`["\']` in the publisher's version pattern. -/
def isQuoteChar (c : Char) : Bool :=
  c = '"' || c = '\''

/-- Decimal digit test (`0`-`9`). -/
def isDigitCh (c : Char) : Bool :=
  '0' ≤ c && c ≤ '9'

/-- Octal digit test (`0`-`7`). -/
def isOctDigit (c : Char) : Bool :=
  '0' ≤ c && c ≤ '7'

/-- ASCII letter test. -/
def isAsciiLetterCh (c : Char) : Bool :=
  ('a' ≤ c && c ≤ 'z') || ('A' ≤ c && c ≤ 'Z')

/-- Numeric value of a decimal (or octal) digit character. -/
def digitVal (c : Char) : Nat :=
  c.toNat - '0'.toNat

/-- Model of Python's `current_version.split('.')` (`str.split` with a
one-character separator, no maxsplit): every `'.'` separates, empty pieces
are kept, and the empty string splits to `[""]`. -/
def splitDot : List Char → List (List Char)
  | [] => [[]]
  | c :: rest =>
    if c = '.' then [] :: splitDot rest
    else
      match splitDot rest with
      | h :: t => (c :: h) :: t
      | [] => [[c]]

/-- Accumulating digit scanner for `int()`: after a first digit has been
read, Python accepts further digits with single underscores allowed only
between digits. -/
def pyDigitsAux : List Char → Nat → Option Nat
  | [], acc => some acc
  | c :: rest, acc =>
    if c = '_' then
      match rest with
      | [] => none
      | d :: rest2 =>
        if isDigitCh d then pyDigitsAux rest2 (acc * 10 + digitVal d) else none
    else if isDigitCh c then pyDigitsAux rest (acc * 10 + digitVal c)
    else none

/-- Unsigned part of `int()` parsing: a digit followed by digits with
single interior underscores. -/
def pyIntAbs : List Char → Option Nat
  | [] => none
  | c :: rest => if isDigitCh c then pyDigitsAux rest (digitVal c) else none

/-- Strip of leading and trailing whitespace, as `int()` and
`str.strip()` perform (ASCII model). -/
def pyStripWs (s : List Char) : List Char :=
  ((s.dropWhile isReWs).reverse.dropWhile isReWs).reverse

/-- Model of Python's `int(s)` on a string: optional surrounding
whitespace, an optional single sign, then decimal digits with single
interior underscores; `none` models the `ValueError` the call raises
otherwise.  (ASCII model: CPython additionally accepts some non-ASCII
digits and whitespace, which cannot occur in the manifests at issue.) -/
def pyInt (s : List Char) : Option Int :=
  match pyStripWs s with
  | '+' :: rest => (pyIntAbs rest).map (fun n => (n : Int))
  | '-' :: rest => (pyIntAbs rest).map (fun n => -(n : Int))
  | t => (pyIntAbs t).map (fun n => (n : Int))

/-- Decimal rendering of an integer exactly as Python's f-string
interpolation `f"{new_patch}"` renders an `int`. -/
def intToChars (i : Int) : List Char :=
  if i < 0 then '-' :: Nat.toDigits 10 i.natAbs else Nat.toDigits 10 i.toNat

/-- Assembly of the new version string, `f"{major}.{minor}.{new_patch}"`
with `new_patch = int(patch) + 1` (`src/publish.py` lines 65-66): the
major and minor parts are spliced back in unchanged as text. -/
def mkVersion (major minor : List Char) (patch : Int) : List Char :=
  major ++ '.' :: (minor ++ '.' :: intToChars (patch + 1))

/-- Version increment of `src/publish.py` lines 58-66 as a function:
split on dots, require exactly three components, parse the third as an
integer and add one; `none` covers both failure modes (wrong component
count, unparsable patch). -/
def incrementVersion (v : List Char) : Option (List Char) :=
  match splitDot v with
  | [major, minor, patch] => (pyInt patch).map (mkVersion major minor)
  | _ => none

/-- Literal consumption: `stripPrefixChars lit s` is `some r` when `s`
begins with the literal `lit`, with `r` the remainder. -/
def stripPrefixChars : List Char → List Char → Option (List Char)
  | [], s => some s
  | _ :: _, [] => none
  | l :: ls, c :: cs => if c = l then stripPrefixChars ls cs else none

/-- Characters of the literal `version` in the publisher's patterns. -/
def litVersion : List Char := ['v', 'e', 'r', 's', 'i', 'o', 'n']

/-- Characters of the literal `apiToken` in the publisher's token pattern. -/
def litApiToken : List Char := ['a', 'p', 'i', 'T', 'o', 'k', 'e', 'n']

/-- Attempted match of the pattern `version\s*=\s*["\']([^"\']+)["\']`
(`src/publish.py` lines 49 and 72; line 72 is the same pattern without
the capturing parentheses) anchored at the head of `s`.  On success the
result is `(whole, group, rest)`: the matched span, the first capture
(the text between the quotes) and the remainder of `s`.  Each greedy
sub-expression here is deterministic: `\s*` stops exactly at the first
non-whitespace character and `[^"\']+` at the first quote, and in each
case no shorter attempt can extend the match, so no backtracking arises. -/
def matchVersionAt (s : List Char) : Option (List Char × List Char × List Char) :=
  match stripPrefixChars litVersion s with
  | none => none
  | some r1 =>
    match r1.dropWhile isReWs with
    | '=' :: r3 =>
      match r3.dropWhile isReWs with
      | q1 :: r5 =>
        if isQuoteChar q1 then
          match r5.dropWhile (fun c => !isQuoteChar c) with
          | q2 :: r7 =>
            if (r5.takeWhile (fun c => !isQuoteChar c)).isEmpty then none
            else some (litVersion ++ r1.takeWhile isReWs ++
                         '=' :: r3.takeWhile isReWs ++
                         q1 :: r5.takeWhile (fun c => !isQuoteChar c) ++ [q2],
                       r5.takeWhile (fun c => !isQuoteChar c), r7)
          | [] => none
        else none
      | [] => none
    | _ => none

/-- Model of `re.search(r'version\s*=\s*["\']([^"\']+)["\']', content)`
followed by `.group(1)`: the capture of the leftmost match, scanning
start positions left to right. -/
def versionSearch : List Char → Option (List Char)
  | [] => none
  | c :: rest =>
    match matchVersionAt (c :: rest) with
    | some (_, g, _) => some g
    | none => versionSearch rest

/-- Tail of the token pattern after `apiToken\s*=` has been consumed:
the sub-pattern `\s*(.+)` with Python's backtracking.  The greedy `\s*`
first swallows the maximal whitespace run; if a character follows it is
not a newline (newlines are whitespace), so `.+` matches through to the
next newline or the end.  If nothing follows, the engine backs `\s*` off
to the rightmost whitespace position holding a non-newline character,
and `.+` then matches exactly that one character (everything at later
positions is a newline). -/
def tokenTail (s : List Char) : Option (List Char) :=
  match s.dropWhile isReWs with
  | c :: r => some ((c :: r).takeWhile (fun x => x ≠ '\n'))
  | [] =>
    match s.reverse.dropWhile (fun x => x = '\n') with
    | c :: _ => some [c]
    | [] => none

/-- Attempted match of `apiToken\s*=\s*(.+)` anchored at the head of
`s`, returning the first capture. -/
def matchTokenAt (s : List Char) : Option (List Char) :=
  match stripPrefixChars litApiToken s with
  | none => none
  | some r1 =>
    match r1.dropWhile isReWs with
    | '=' :: r3 => tokenTail r3
    | _ => none

/-- Model of `re.search(r'apiToken\s*=\s*(.+)', env_content)` followed by
`.group(1)`: the capture of the leftmost match. -/
def tokenSearch : List Char → Option (List Char)
  | [] => none
  | c :: rest =>
    match matchTokenAt (c :: rest) with
    | some g => some g
    | none => tokenSearch rest

/-- Piece of a parsed `re.sub` replacement template: a literal character,
or a reference to the whole match (which `\g<0>` produces). -/
inductive TPiece where
  | ch (c : Char)
  | whole
deriving DecidableEq

/-- Decimal value of a digit string. -/
def decDigitsVal (l : List Char) : Nat :=
  l.foldl (fun a c => a * 10 + digitVal c) 0

/-- Consumption of up to two octal digits after `\0` in a replacement
template, returning the octal value and the remainder. -/
def octTail : List Char → Nat × List Char
  | [] => (0, [])
  | d1 :: rest1 =>
    if isOctDigit d1 then
      match rest1 with
      | d2 :: rest2 =>
        if isOctDigit d2 then (digitVal d1 * 8 + digitVal d2, rest2)
        else (digitVal d1, rest1)
      | [] => (digitVal d1, [])
    else (0, d1 :: rest1)

/-- Handling of one escape sequence of CPython's `re` replacement-template
scan (`parse_template`) for a pattern with no capturing groups, which is
the situation of `re.sub` at `src/publish.py` lines 71-75 (the
substitution pattern there has no parentheses).  The argument is the text
following a backslash; the result is the pieces the escape contributes
and the remaining text, or `none` for the errors the scan raises.
`\\`, `\a`, `\b`, `\f`, `\n`, `\r`, `\t`, `\v` are character escapes;
`\0` (with up to two more octal digits) and three-octal-digit escapes
`\ooo` not above `\377` are octal character escapes; any other `\`
followed by a digit is a group reference, invalid since the pattern has
no groups; `\g<n>` is valid exactly for `n = 0` and references the whole
match; `\g` otherwise and `\` before any other ASCII letter are errors;
`\` before a non-letter is kept as the two characters. -/
def escStep : List Char → Option (List TPiece × List Char)
  | [] => none
  | e :: r2 =>
    if e = '\\' then some ([TPiece.ch '\\'], r2)
    else if e = 'a' then some ([TPiece.ch '\x07'], r2)
    else if e = 'b' then some ([TPiece.ch '\x08'], r2)
    else if e = 'f' then some ([TPiece.ch '\x0c'], r2)
    else if e = 'n' then some ([TPiece.ch '\n'], r2)
    else if e = 'r' then some ([TPiece.ch '\r'], r2)
    else if e = 't' then some ([TPiece.ch '\t'], r2)
    else if e = 'v' then some ([TPiece.ch '\x0b'], r2)
    else if e = 'g' then
      match r2 with
      | '<' :: r3 =>
        match r3.dropWhile (fun x => x ≠ '>') with
        | '>' :: r4 =>
          if r3.takeWhile (fun x => x ≠ '>') ≠ [] ∧
             (r3.takeWhile (fun x => x ≠ '>')).all isDigitCh ∧
             decDigitsVal (r3.takeWhile (fun x => x ≠ '>')) = 0 then
            some ([TPiece.whole], r4)
          else none
        | _ => none
      | _ => none
    else if e = '0' then
      match octTail r2 with
      | (v, r3) => some ([TPiece.ch (Char.ofNat v)], r3)
    else if isDigitCh e then
      match r2 with
      | d2 :: r4 =>
        if isDigitCh d2 then
          match r4 with
          | d3 :: r5 =>
            if isOctDigit e && isOctDigit d2 && isOctDigit d3 then
              if digitVal e * 64 + digitVal d2 * 8 + digitVal d3 > 255 then none
              else some ([TPiece.ch (Char.ofNat (digitVal e * 64 + digitVal d2 * 8 + digitVal d3))], r5)
            else none
          | [] => none
        else none
      | [] => none
    else if isAsciiLetterCh e then none
    else some ([TPiece.ch '\\', TPiece.ch e], r2)

/-- Fuel-driven replacement-template scan: literal characters are kept,
a backslash hands over to `escStep`, and `none` models the exception
`re.sub` raises on a malformed template.  The fuel only serves
structural termination: every round consumes at least one character, so
any fuel of at least the length of the template gives the scan's
result. -/
def parseTemplateFuel : Nat → List Char → Option (List TPiece)
  | _, [] => some []
  | 0, _ :: _ => none
  | fuel + 1, c :: rest =>
    if c = '\\' then
      match escStep rest with
      | none => none
      | some (ps, r) => (parseTemplateFuel fuel r).map (ps ++ ·)
    else (parseTemplateFuel fuel rest).map (TPiece.ch c :: ·)

/-- Replacement-template scan with sufficient fuel. -/
def parseTemplate (s : List Char) : Option (List TPiece) :=
  parseTemplateFuel s.length s

/-- Expansion of a parsed template at a match whose whole span is `w`. -/
def tExpand : List TPiece → List Char → List Char
  | [], _ => []
  | TPiece.ch c :: t, w => c :: tExpand t w
  | TPiece.whole :: t, w => w ++ tExpand t w

/-- Fuel-driven scan of `re.sub` over the subject string for the version
pattern: at each position, if the pattern matches, the expanded template
replaces the whole matched span and scanning resumes at the span's end;
otherwise the character is kept and scanning advances one position.  All
matches are replaced (CPython's `count = 0` default).  The fuel only
serves structural termination: any match consumes at least one character
(in fact at least eleven), so any fuel of at least the length of the
subject gives the scan's result. -/
def reSubAllFuel (t : List TPiece) : Nat → List Char → List Char
  | _, [] => []
  | 0, s => s
  | fuel + 1, c :: rest =>
    match matchVersionAt (c :: rest) with
    | some (w, _, r) => tExpand t w ++ reSubAllFuel t fuel r
    | none => c :: reSubAllFuel t fuel rest

/-- Substitution scan with sufficient fuel. -/
def reSubAll (t : List TPiece) (s : List Char) : List Char :=
  reSubAllFuel t s.length s

/-- Model of `re.sub(r'version\s*=\s*["\'][^"\']+["\']', repl, content)`:
the replacement string is scanned as a template (possibly raising, hence
`none`), then every match in `content` is replaced by its expansion. -/
def pySub (repl content : List Char) : Option (List Char) :=
  (parseTemplate repl).map (fun t => reSubAll t content)

/-- Replacement string `f'version = {q}{new_version}{q}'` built at
`src/publish.py` line 73, where `q` is a double quote: the canonical
assignment text around the new version. -/
def replString (v : List Char) : List Char :=
  ('v' :: 'e' :: 'r' :: 's' :: 'i' :: 'o' :: 'n' :: ' ' :: '=' :: ' ' :: '"' :: []) ++ v ++ ['"']

/-- Environment a run of the publisher script observes: presence and
content of `pyproject.toml`, the exit status of `python -m build`,
presence and content of `.env`, and the exit status of `twine upload`.
(The exit statuses are only consulted if the corresponding command is
reached.) -/
structure Env where
  pyprojectExists : Bool
  pyproject : List Char
  buildExit : Int
  dotenvExists : Bool
  dotenv : List Char
  uploadExit : Int
deriving DecidableEq

/-- Diagnostic outcomes the publisher prints, one per distinct message
of `src/publish.py`.  `unexpectedError` is the top-level handler of
lines 148-150, which catches exceptions such as the `ValueError` of
`int(patch)` on a non-numeric patch and the `re.error` of `re.sub` on a
replacement template escape error. -/
inductive Diag where
  | noManifest
  | noVersion
  | invalidVersionFormat
  | buildFailed
  | noEnvFile
  | noApiToken
  | uploadFailed
  | success
  | unexpectedError
deriving DecidableEq

/-- Observable event of a publisher run: a write of `pyproject.toml`
with the given full content, the artifact clean-up, an invocation of the
build command, of the upload command (carrying the token passed to
`--password`), of the post-publish `pip install --upgrade`, or a printed
diagnostic. -/
inductive Ev where
  | writeManifest (content : List Char)
  | cleanArtifacts
  | runBuild
  | runUpload (token : List Char)
  | runPipUpgrade
  | report (d : Diag)
deriving DecidableEq

/-- Model of `main()` of `src/publish.py` as the sequence of observable
events of a run under environment `e`, following the source line by
line: locate the manifest (line 41), extract the version (line 49),
split it and require three components (lines 58-62), parse and bump the
patch (lines 64-66), substitute the new assignment (lines 71-75), write
the manifest (lines 77-78), clean old build directories (lines 83-89),
build (lines 93-97), locate `.env` (line 103), extract the token (lines
111-117), upload (lines 121-130), then report success and refresh the
local installation (lines 132-137).  Each failure path ends the run
right after its diagnostic. -/
def publishMain (e : Env) : List Ev :=
  if e.pyprojectExists = false then [Ev.report Diag.noManifest]
  else
    match versionSearch e.pyproject with
    | none => [Ev.report Diag.noVersion]
    | some current =>
      match splitDot current with
      | [major, minor, patch] =>
        match pyInt patch with
        | none => [Ev.report Diag.unexpectedError]
        | some p =>
          match pySub (replString (mkVersion major minor p)) e.pyproject with
          | none => [Ev.report Diag.unexpectedError]
          | some newContent =>
            Ev.writeManifest newContent ::
            Ev.cleanArtifacts ::
            Ev.runBuild ::
            if e.buildExit ≠ 0 then [Ev.report Diag.buildFailed]
            else if e.dotenvExists = false then [Ev.report Diag.noEnvFile]
            else
              match tokenSearch e.dotenv with
              | none => [Ev.report Diag.noApiToken]
              | some tok =>
                Ev.runUpload (pyStripWs tok) ::
                if e.uploadExit ≠ 0 then [Ev.report Diag.uploadFailed]
                else [Ev.report Diag.success, Ev.runPipUpgrade]
      | _ => [Ev.report Diag.invalidVersionFormat]

/-- Constructor shorthand for an environment, fields in declaration
order. -/
def mkEnv (tomlEx : Bool) (toml : List Char) (buildE : Int)
    (envEx : Bool) (envC : List Char) (uploadE : Int) : Env :=
  { pyprojectExists := tomlEx, pyproject := toml, buildExit := buildE,
    dotenvExists := envEx, dotenv := envC, uploadExit := uploadE }

/-- Contents written to the manifest over a run, in order. -/
def manifestWrites (tr : List Ev) : List (List Char) :=
  tr.filterMap (fun ev =>
    match ev with
    | Ev.writeManifest c => some c
    | _ => none)

/-- Test for an upload invocation in a run. -/
def hasUpload (tr : List Ev) : Bool :=
  tr.any (fun ev =>
    match ev with
    | Ev.runUpload _ => true
    | _ => false)

/-- Assignment text `version` `ws1` `=` `ws2` `q1` `v` `q2`: the general
shape of a span the version pattern matches, with arbitrary whitespace
runs around the equals sign and arbitrary (possibly differing) quote
characters. -/
def assignOf (ws1 ws2 : List Char) (q1 q2 : Char) (v : List Char) : List Char :=
  litVersion ++ ws1 ++ '=' :: ws2 ++ q1 :: v ++ [q2]

/-- Absence of a version-pattern match starting at any position inside
`pre` when `pre` is followed by `rest`. -/
def noMatchThrough : List Char → List Char → Bool
  | [], _ => true
  | c :: p, rest => (matchVersionAt (c :: (p ++ rest))).isNone && noMatchThrough p rest

/-- Absence of a version-pattern match starting at any position of `s`. -/
def noMatchAll : List Char → Bool
  | [] => true
  | c :: rest => (matchVersionAt (c :: rest)).isNone && noMatchAll rest

/-- In-memory image after the RGBA normalization of
`src/convert_to_vector.py` lines 21-22: pixel dimensions and the byte
content of the pixel data.  (The claims under proof concern only the
dimensions; the pixel bytes are carried through opaquely.) -/
structure Img where
  width : Nat
  height : Nat
  pixels : List Nat
deriving DecidableEq

/-- Modelled from the spec: the image library's `thumbnail` used at
`src/convert_to_vector.py` line 29, which is not part of this
repository.  Per the spec it downsizes in place, preserving aspect ratio
so that the longer dimension equals the bound, and is a no-op when the
image already fits the bound; the shorter dimension is the proportional
value rounded to the nearest integer, and at least 1. -/
def thumbnailSize (m w h : Nat) : Nat × Nat :=
  if w ≤ m ∧ h ≤ m then (w, h)
  else if h ≤ w then (m, max 1 ((2 * h * m + w) / (2 * w)))
  else (max 1 ((2 * w * m + h) / (2 * h)), m)

/-- Modelled from the spec: the Lanczos resampling of the pixel content
performed by the image library's `thumbnail`, which is not part of this
repository.  The claims under proof constrain only the image dimensions,
so the resampled pixel content is carried through opaquely. -/
def resamplePixels (px : List Nat) (_w _h : Nat) : List Nat :=
  px

/-- Signature bytes every PNG stream begins with. -/
def pngMagic : List Nat := [137, 80, 78, 71, 13, 10, 26, 10]

/-- Big-endian four-byte rendering of a number, as PNG stores the image
width and height. -/
def be32 (n : Nat) : List Nat :=
  [n / 16777216 % 256, n / 65536 % 256, n / 256 % 256, n % 256]

/-- Modelled from the spec: the image library's PNG serialization
(`img.save(..., format='PNG')`, `src/convert_to_vector.py` line 34),
which is not part of this repository.  A valid PNG stream starts with
the eight signature bytes and records the pixel width and height as
big-endian four-byte values (in the IHDR chunk); the pixel data
follows. -/
def pngBytes (img : Img) : List Nat :=
  pngMagic ++ be32 img.width ++ be32 img.height ++ img.pixels

/-- Modelled from the spec: decoding of a PNG byte stream to an image,
inverse of `pngBytes` — the signature bytes are checked and the width
and height are read back from their big-endian four-byte fields. -/
def pngParse (bs : List Nat) : Option Img :=
  match bs with
  | m0 :: m1 :: m2 :: m3 :: m4 :: m5 :: m6 :: m7 ::
    w0 :: w1 :: w2 :: w3 :: h0 :: h1 :: h2 :: h3 :: px =>
    if [m0, m1, m2, m3, m4, m5, m6, m7] = pngMagic then
      some { width := w0 * 16777216 + w1 * 65536 + w2 * 256 + w3,
             height := h0 * 16777216 + h1 * 65536 + h2 * 256 + h3,
             pixels := px }
    else none
  | _ => none

/-- Standard base64 alphabet, as `base64.b64encode` uses. -/
def b64Alphabet : List Char :=
  ['A', 'B', 'C', 'D', 'E', 'F', 'G', 'H', 'I', 'J', 'K', 'L', 'M',
   'N', 'O', 'P', 'Q', 'R', 'S', 'T', 'U', 'V', 'W', 'X', 'Y', 'Z',
   'a', 'b', 'c', 'd', 'e', 'f', 'g', 'h', 'i', 'j', 'k', 'l', 'm',
   'n', 'o', 'p', 'q', 'r', 's', 't', 'u', 'v', 'w', 'x', 'y', 'z',
   '0', '1', '2', '3', '4', '5', '6', '7', '8', '9', '+', '/']

/-- Character of a six-bit value in the base64 alphabet. -/
def b64Char (n : Nat) : Char :=
  b64Alphabet.getD n 'A'

/-- Six-bit value of a base64 character. -/
def b64Index (c : Char) : Option Nat :=
  b64Alphabet.findIdx? (fun x => x = c)

/-- Model of `base64.b64encode` on a byte list: three bytes become four
alphabet characters; a final group of one or two bytes is padded with
`=`. -/
def b64Encode : List Nat → List Char
  | [] => []
  | [a] => [b64Char (a / 4), b64Char (a % 4 * 16), '=', '=']
  | [a, b] => [b64Char (a / 4), b64Char (a % 4 * 16 + b / 16), b64Char (b % 16 * 4), '=']
  | a :: b :: c :: rest =>
    b64Char (a / 4) :: b64Char (a % 4 * 16 + b / 16) ::
    b64Char (b % 16 * 4 + c / 64) :: b64Char (c % 64) :: b64Encode rest

/-- Model of `base64.b64decode` on well-formed input: four characters
yield three bytes, with `=` padding closing the stream after a final
group of one or two bytes. -/
def b64Decode : List Char → Option (List Nat)
  | [] => some []
  | c1 :: c2 :: c3 :: c4 :: rest =>
    if rest = [] ∧ c4 = '=' then
      match b64Index c1, b64Index c2 with
      | some e1, some e2 =>
        if c3 = '=' then some [e1 * 4 + e2 / 16]
        else
          match b64Index c3 with
          | some e3 => some [e1 * 4 + e2 / 16, e2 % 16 * 16 + e3 / 4]
          | none => none
      | _, _ => none
    else
      match b64Index c1, b64Index c2, b64Index c3, b64Index c4 with
      | some e1, some e2, some e3, some e4 =>
        (b64Decode rest).map
          (fun bs => (e1 * 4 + e2 / 16) :: (e2 % 16 * 16 + e3 / 4) :: (e3 % 4 * 64 + e4) :: bs)
      | _, _, _, _ => none
  | _ => none

/-- Generated SVG document of `src/convert_to_vector.py` lines 44-53,
kept as its declared attributes: the `width` and `height` written on the
root element (the `viewBox` and the embedded `image` element repeat the
same two numbers) and the base64 payload of the `data:image/png;base64`
URI. -/
structure Svg where
  width : Nat
  height : Nat
  payload : List Char
deriving DecidableEq

/-- Category string of icon assets. -/
def iconCat : List Char := ['i', 'c', 'o', 'n']

/-- Model of `png_to_svg` (`src/convert_to_vector.py` lines 12-59): the
source image is normalized to RGBA; when the category is `icon` and the
longer dimension exceeds 512, the image is downsized in place by
`thumbnail`; the (possibly resized) image is re-serialized as PNG and
base64-encoded, and the SVG declares the image's current dimensions
alongside that payload. -/
def png_to_svg (optimize_for : List Char) (img : Img) : Svg :=
  let dims :=
    if optimize_for = iconCat ∧ 512 < max img.width img.height then
      thumbnailSize 512 img.width img.height
    else (img.width, img.height)
  let img2 : Img := { width := dims.1, height := dims.2,
                      pixels := resamplePixels img.pixels dims.1 dims.2 }
  { width := dims.1, height := dims.2, payload := b64Encode (pngBytes img2) }

/-! Helper lemmas about the scanning primitives. -/

theorem length_dropWhile_le (p : Char → Bool) (l : List Char) :
    (l.dropWhile p).length ≤ l.length := by
  induction l with
  | nil => simp [List.dropWhile]
  | cons c rest ih =>
    simp only [List.dropWhile]
    split
    · exact Nat.le_succ_of_le ih
    · exact Nat.le_refl _

theorem stripPrefixChars_length {l s r : List Char}
    (h : stripPrefixChars l s = some r) : s.length = l.length + r.length := by
  induction l generalizing s with
  | nil => simp [stripPrefixChars] at h; simp [h]
  | cons a ls ih =>
    cases s with
    | nil => simp [stripPrefixChars] at h
    | cons c cs =>
      simp only [stripPrefixChars] at h
      split at h
      · have := ih h
        simp [this]; omega
      · exact absurd h (by simp)

theorem stripPrefixChars_append (l r : List Char) :
    stripPrefixChars l (l ++ r) = some r := by
  induction l with
  | nil => simp [stripPrefixChars]
  | cons a ls ih => simp [stripPrefixChars, ih]

theorem matchVersionAt_length {s w g r : List Char}
    (h : matchVersionAt s = some (w, g, r)) : r.length < s.length := by
  unfold matchVersionAt at h
  split at h
  · exact absurd h (by simp)
  case _ r1 h1 =>
    have hl1 : s.length = 7 + r1.length := stripPrefixChars_length h1
    split at h
    case _ r3 h3 =>
      have hl3 : r3.length + 1 ≤ r1.length := by
        have := length_dropWhile_le isReWs r1
        rw [h3] at this
        simpa using this
      split at h
      case _ q1 r5 h5 =>
        have hl5 : r5.length + 1 ≤ r3.length := by
          have := length_dropWhile_le isReWs r3
          rw [h5] at this
          simpa using this
        split at h
        · split at h
          case _ q2 r7 h7 =>
            have hl7 : r7.length + 1 ≤ r5.length := by
              have := length_dropWhile_le (fun c => !isQuoteChar c) r5
              rw [h7] at this
              simpa using this
            split at h
            · exact absurd h (by simp)
            · simp only [Option.some.injEq, Prod.mk.injEq] at h
              obtain ⟨-, -, hr⟩ := h
              subst hr
              omega
          · exact absurd h (by simp)
        · exact absurd h (by simp)
      · exact absurd h (by simp)
    · exact absurd h (by simp)

theorem reSubAllFuel_canon (t : List TPiece) :
    ∀ n s, s.length ≤ n → reSubAllFuel t n s = reSubAll t s := by
  intro n
  induction n using Nat.strong_induction_on with
  | _ n ih =>
    intro s hs
    cases s with
    | nil => cases n <;> rfl
    | cons c rest =>
      cases n with
      | zero => simp at hs
      | succ m =>
        have hrest : rest.length ≤ m := by simpa using hs
        cases hm : matchVersionAt (c :: rest) with
        | some res =>
          obtain ⟨w, g, r⟩ := res
          have hr : r.length < rest.length + 1 := matchVersionAt_length hm
          simp only [reSubAll, List.length_cons, reSubAllFuel, hm]
          rw [ih m (by omega) r (by omega)]
          rw [ih rest.length (by omega) r (by omega)]
        | none =>
          simp only [reSubAll, List.length_cons, reSubAllFuel, hm]
          rw [ih m (by omega) rest (by omega)]
          rw [ih rest.length (by omega) rest (by omega)]

theorem reSubAll_cons_none {t : List TPiece} {c : Char} {rest : List Char}
    (h : matchVersionAt (c :: rest) = none) :
    reSubAll t (c :: rest) = c :: reSubAll t rest := by
  conv_lhs => rw [reSubAll]
  simp only [List.length_cons, reSubAllFuel, h]
  rw [reSubAllFuel_canon t rest.length rest (Nat.le_refl _)]

theorem reSubAll_cons_match {t : List TPiece} {c : Char} {rest w g r : List Char}
    (h : matchVersionAt (c :: rest) = some (w, g, r)) :
    reSubAll t (c :: rest) = tExpand t w ++ reSubAll t r := by
  have hr : r.length < rest.length + 1 := matchVersionAt_length h
  conv_lhs => rw [reSubAll]
  simp only [List.length_cons, reSubAllFuel, h]
  rw [reSubAllFuel_canon t rest.length r (by omega)]

theorem reSubAll_noMatchAll {t : List TPiece} {s : List Char}
    (h : noMatchAll s = true) : reSubAll t s = s := by
  induction s with
  | nil => rfl
  | cons c rest ih =>
    simp only [noMatchAll, Bool.and_eq_true, Option.isNone_iff_eq_none] at h
    rw [reSubAll_cons_none h.1, ih h.2]

theorem reSubAll_append_noMatchThrough {t : List TPiece} {pre rest : List Char}
    (h : noMatchThrough pre rest = true) :
    reSubAll t (pre ++ rest) = pre ++ reSubAll t rest := by
  induction pre with
  | nil => simp
  | cons c p ih =>
    simp only [noMatchThrough, Bool.and_eq_true, Option.isNone_iff_eq_none] at h
    rw [List.cons_append, reSubAll_cons_none h.1, ih h.2]
    simp

theorem versionSearch_append_noMatchThrough {pre rest : List Char}
    (h : noMatchThrough pre rest = true) :
    versionSearch (pre ++ rest) = versionSearch rest := by
  induction pre with
  | nil => simp
  | cons c p ih =>
    simp only [noMatchThrough, Bool.and_eq_true, Option.isNone_iff_eq_none] at h
    rw [List.cons_append]
    simp only [versionSearch, h.1]
    exact ih h.2

theorem takeWhile_append_all {p : Char → Bool} {a : List Char} (b : Char) (r : List Char)
    (ha : a.all p = true) (hb : p b = false) :
    (a ++ b :: r).takeWhile p = a := by
  induction a with
  | nil => simp [List.takeWhile, hb]
  | cons c cs ih =>
    simp only [List.all_cons, Bool.and_eq_true] at ha
    simp [List.takeWhile, ha.1, ih ha.2]

theorem dropWhile_append_all {p : Char → Bool} {a : List Char} (b : Char) (r : List Char)
    (ha : a.all p = true) (hb : p b = false) :
    (a ++ b :: r).dropWhile p = b :: r := by
  induction a with
  | nil => simp [List.dropWhile, hb]
  | cons c cs ih =>
    simp only [List.all_cons, Bool.and_eq_true] at ha
    simp [List.dropWhile, ha.1, ih ha.2]

theorem quote_not_ws {c : Char} (h : isQuoteChar c = true) : isReWs c = false := by
  simp only [isQuoteChar, Bool.or_eq_true, decide_eq_true_eq] at h
  rcases h with h | h <;> subst h <;> decide

theorem quote_not_not_quote {c : Char} (h : isQuoteChar c = true) :
    (!isQuoteChar c) = false := by
  simp [h]

theorem matchVersionAt_assignOf (ws1 ws2 : List Char) (q1 q2 : Char) (v rest : List Char)
    (h1 : ws1.all isReWs = true) (h2 : ws2.all isReWs = true)
    (hq1 : isQuoteChar q1 = true) (hq2 : isQuoteChar q2 = true)
    (hv : v ≠ []) (hvq : v.all (fun c => !isQuoteChar c) = true) :
    matchVersionAt (assignOf ws1 ws2 q1 q2 v ++ rest) =
      some (assignOf ws1 ws2 q1 q2 v, v, rest) := by
  have hassoc : assignOf ws1 ws2 q1 q2 v ++ rest =
      litVersion ++ (ws1 ++ '=' :: (ws2 ++ q1 :: (v ++ q2 :: rest))) := by
    simp [assignOf]
  rw [hassoc]
  obtain ⟨a, as, rfl⟩ := List.exists_cons_of_ne_nil hv
  simp only [matchVersionAt, stripPrefixChars_append,
    dropWhile_append_all '=' (ws2 ++ q1 :: ((a :: as) ++ q2 :: rest)) h1 (by decide),
    dropWhile_append_all q1 ((a :: as) ++ q2 :: rest) h2 (quote_not_ws hq1),
    dropWhile_append_all q2 rest hvq (quote_not_not_quote hq2),
    takeWhile_append_all '=' (ws2 ++ q1 :: ((a :: as) ++ q2 :: rest)) h1 (by decide),
    takeWhile_append_all q1 ((a :: as) ++ q2 :: rest) h2 (quote_not_ws hq1),
    takeWhile_append_all q2 rest hvq (quote_not_not_quote hq2),
    hq1, if_true, List.isEmpty_cons, Bool.false_eq_true, if_false]
  simp [assignOf]

theorem digitChar_lt10_ne_backslash : ∀ m, m < 10 → Nat.digitChar m ≠ '\\' := by
  decide

theorem toDigitsCore_ne_backslash :
    ∀ (f n : Nat) (ds : List Char), '\\' ∉ ds → '\\' ∉ Nat.toDigitsCore 10 f n ds := by
  intro f
  induction f with
  | zero => intro n ds hds; simpa [Nat.toDigitsCore] using hds
  | succ f ih =>
    intro n ds hds
    simp only [Nat.toDigitsCore]
    have hd : '\\' ∉ (Nat.digitChar (n % 10) :: ds) := by
      intro hmem
      rcases List.mem_cons.mp hmem with h | h
      · exact digitChar_lt10_ne_backslash _ (Nat.mod_lt _ (by decide)) h.symm
      · exact hds h
    split
    · exact hd
    · exact ih _ _ hd

theorem intToChars_ne_backslash (i : Int) : '\\' ∉ intToChars i := by
  unfold intToChars
  split
  · intro hmem
    rcases List.mem_cons.mp hmem with h | h
    · exact absurd h (by decide)
    · exact toDigitsCore_ne_backslash _ _ [] (by simp) h
  · exact toDigitsCore_ne_backslash _ _ [] (by simp)

theorem mkVersion_ne_backslash {ma mi : List Char} (p : Int)
    (hma : '\\' ∉ ma) (hmi : '\\' ∉ mi) : '\\' ∉ mkVersion ma mi p := by
  unfold mkVersion
  intro hmem
  rcases List.mem_append.mp hmem with h | h
  · exact hma h
  · rcases List.mem_cons.mp h with h | h
    · exact absurd h (by decide)
    · rcases List.mem_append.mp h with h | h
      · exact hmi h
      · rcases List.mem_cons.mp h with h | h
        · exact absurd h (by decide)
        · exact intToChars_ne_backslash _ h

theorem replString_ne_backslash {v : List Char} (hv : '\\' ∉ v) :
    '\\' ∉ replString v := by
  unfold replString
  intro hmem
  rcases List.mem_append.mp hmem with h | h
  · rcases List.mem_append.mp h with h | h
    · exact absurd h (by decide)
    · exact hv h
  · exact absurd h (by decide)

theorem parseTemplateFuel_literal :
    ∀ s : List Char, '\\' ∉ s → parseTemplateFuel s.length s = some (s.map TPiece.ch) := by
  intro s
  induction s with
  | nil => intro _; rfl
  | cons c rest ih =>
    intro h
    have hc : ¬(c = '\\') := fun hc => h (by simp [hc])
    have hrest : '\\' ∉ rest := fun hr => h (by simp [hr])
    show parseTemplateFuel (rest.length + 1) (c :: rest) = _
    rw [parseTemplateFuel, if_neg hc, ih hrest]
    rfl

theorem parseTemplate_literal {s : List Char} (h : '\\' ∉ s) :
    parseTemplate s = some (s.map TPiece.ch) :=
  parseTemplateFuel_literal s h

theorem tExpand_map_ch (s w : List Char) : tExpand (s.map TPiece.ch) w = s := by
  induction s with
  | nil => rfl
  | cons c rest ih => simp [tExpand, ih]

theorem b64Index_b64Char : ∀ n, n < 64 → b64Index (b64Char n) = some n := by
  decide

theorem b64Char_ne_pad : ∀ n, n < 64 → b64Char n ≠ '=' := by
  decide

theorem b64_roundtrip :
    ∀ bs : List Nat, (∀ b ∈ bs, b < 256) → b64Decode (b64Encode bs) = some bs
  | [], _ => rfl
  | [a], h => by
    have ha : a < 256 := h a (by simp)
    have h1 := b64Index_b64Char (a / 4) (by omega)
    have h2 := b64Index_b64Char (a % 4 * 16) (by omega)
    simp [b64Encode, b64Decode, h1, h2]
    omega
  | [a, b], h => by
    have ha : a < 256 := h a (by simp)
    have hbb : b < 256 := h b (by simp)
    have h1 := b64Index_b64Char (a / 4) (by omega)
    have h2 := b64Index_b64Char (a % 4 * 16 + b / 16) (by omega)
    have h3 := b64Index_b64Char (b % 16 * 4) (by omega)
    have hp := b64Char_ne_pad (b % 16 * 4) (by omega)
    simp [b64Encode, b64Decode, h1, h2, h3, hp]
    constructor
    · omega
    · omega
  | a :: b :: c :: rest, h => by
    have ha : a < 256 := h a (by simp)
    have hbb : b < 256 := h b (by simp)
    have hc : c < 256 := h c (by simp)
    have h1 := b64Index_b64Char (a / 4) (by omega)
    have h2 := b64Index_b64Char (a % 4 * 16 + b / 16) (by omega)
    have h3 := b64Index_b64Char (b % 16 * 4 + c / 64) (by omega)
    have h4 := b64Index_b64Char (c % 64) (by omega)
    have hp := b64Char_ne_pad (c % 64) (by omega)
    have ih := b64_roundtrip rest (fun x hx => h x (by simp [hx]))
    simp [b64Encode, b64Decode, h1, h2, h3, h4, hp, ih]
    refine ⟨by omega, by omega, by omega⟩

theorem pngParse_pngBytes (img : Img)
    (hw : img.width < 4294967296) (hh : img.height < 4294967296) :
    pngParse (pngBytes img) = some img := by
  obtain ⟨w, h, px⟩ := img
  simp only [pngBytes, pngMagic, be32] at *
  simp only [List.cons_append, List.nil_append, pngParse]
  rw [if_pos (show ([137, 80, 78, 71, 13, 10, 26, 10] : List Nat) = pngMagic by decide)]
  simp only [Option.some.injEq, Img.mk.injEq, and_true]
  constructor
  · omega
  · omega

theorem pngBytes_bytes_lt (img : Img) (hpx : ∀ b ∈ img.pixels, b < 256) :
    ∀ b ∈ pngBytes img, b < 256 := by
  intro b hb
  simp only [pngBytes, pngMagic, be32, List.cons_append, List.nil_append,
    List.mem_cons] at hb
  rcases hb with h | h | h | h | h | h | h | h | h | h | h | h | h | h | h | h | h
  all_goals first
  | (subst h; omega)
  | exact hpx b h

theorem fst_pair (a b : Nat) : (a, b).1 = a := rfl

theorem snd_pair (a b : Nat) : (a, b).2 = b := rfl

theorem splitDot_no_dot {z : List Char} (hz : '.' ∉ z) : splitDot z = [z] := by
  induction z with
  | nil => rfl
  | cons c rest ih =>
    have hc : ¬(c = '.') := fun hcc => hz (by simp [hcc])
    have hrest : '.' ∉ rest := fun hr => hz (by simp [hr])
    simp only [splitDot, if_neg hc, ih hrest]

theorem splitDot_append_dot {x : List Char} (r : List Char) (hx : '.' ∉ x) :
    splitDot (x ++ '.' :: r) = x :: splitDot r := by
  induction x with
  | nil => simp [splitDot]
  | cons c cs ih =>
    have hc : ¬(c = '.') := fun hcc => hx (by simp [hcc])
    have hcs : '.' ∉ cs := fun hr => hx (by simp [hr])
    simp only [List.cons_append, splitDot, if_neg hc, List.append_eq, ih hcs]

theorem thumbnailSize_le512 {w h : Nat} (hbig : ¬(w ≤ 512 ∧ h ≤ 512)) :
    (thumbnailSize 512 w h).1 ≤ 512 ∧ (thumbnailSize 512 w h).2 ≤ 512 := by
  unfold thumbnailSize
  rw [if_neg hbig]
  split
  next hle =>
    have hw : 512 < w := by omega
    have hq : (2 * h * 512 + w) / (2 * w) < 513 := by
      rw [Nat.div_lt_iff_lt_mul (by omega)]
      omega
    constructor
    · simp
    · simp only
      omega
  next hgt =>
    have hlt : w < h := by omega
    have hh : 512 < h := by omega
    have hq : (2 * w * 512 + h) / (2 * h) < 513 := by
      rw [Nat.div_lt_iff_lt_mul (by omega)]
      omega
    constructor
    · simp only
      omega
    · simp

theorem reSubAll_match_head {t : List TPiece} {s w g r : List Char}
    (hs : s ≠ []) (h : matchVersionAt s = some (w, g, r)) :
    reSubAll t s = tExpand t w ++ reSubAll t r := by
  cases s with
  | nil => exact absurd rfl hs
  | cons c rest => exact reSubAll_cons_match h

theorem versionSearch_match_head {s w g r : List Char}
    (hs : s ≠ []) (h : matchVersionAt s = some (w, g, r)) :
    versionSearch s = some g := by
  cases s with
  | nil => exact absurd rfl hs
  | cons c rest => simp [versionSearch, h]

theorem assignOf_ne_nil (ws1 ws2 : List Char) (q1 q2 : Char) (v : List Char) :
    assignOf ws1 ws2 q1 q2 v ++ post ≠ [] := by
  simp [assignOf, litVersion]

theorem pySub_single_assign
    (pre post ws1 ws2 v newV : List Char) (q1 q2 : Char)
    (hws1 : ws1.all isReWs = true) (hws2 : ws2.all isReWs = true)
    (hq1 : isQuoteChar q1 = true) (hq2 : isQuoteChar q2 = true)
    (hv : v ≠ []) (hvq : v.all (fun c => !isQuoteChar c) = true)
    (hpre : noMatchThrough pre (assignOf ws1 ws2 q1 q2 v ++ post) = true)
    (hpost : noMatchAll post = true)
    (hnb : '\\' ∉ newV) :
    pySub (replString newV) (pre ++ assignOf ws1 ws2 q1 q2 v ++ post)
      = some (pre ++ replString newV ++ post) := by
  unfold pySub
  rw [parseTemplate_literal (replString_ne_backslash hnb)]
  have hm := matchVersionAt_assignOf ws1 ws2 q1 q2 v post hws1 hws2 hq1 hq2 hv hvq
  rw [List.append_assoc, Option.map_some']
  rw [reSubAll_append_noMatchThrough hpre]
  rw [reSubAll_match_head (assignOf_ne_nil ws1 ws2 q1 q2 v) hm]
  rw [tExpand_map_ch, reSubAll_noMatchAll hpost, List.append_assoc]

theorem publishMain_write_eq
    (e : Env) (v ma mi pa : List Char) (n : Int) (newContent : List Char)
    (hex : e.pyprojectExists = true)
    (hv : versionSearch e.pyproject = some v)
    (hsd : splitDot v = [ma, mi, pa])
    (hn : pyInt pa = some n)
    (hsub : pySub (replString (mkVersion ma mi n)) e.pyproject = some newContent) :
    ∃ rest, publishMain e = Ev.writeManifest newContent :: rest := by
  unfold publishMain
  rw [hex]
  simp only [Bool.true_eq_false, if_false, hv, hsd, hn, hsub]
  exact ⟨_, rfl⟩

theorem publishMain_invalidFormat
    (e : Env) (v : List Char)
    (hex : e.pyprojectExists = true)
    (hv : versionSearch e.pyproject = some v)
    (hlen : (splitDot v).length ≠ 3) :
    publishMain e = [Ev.report Diag.invalidVersionFormat] := by
  unfold publishMain
  rw [hex]
  simp only [Bool.true_eq_false, if_false, hv]
  cases hsd : splitDot v with
  | nil => rfl
  | cons a t =>
    cases t with
    | nil => rfl
    | cons b u =>
      cases u with
      | nil => rfl
      | cons d x =>
        cases x with
        | nil => exact absurd (by rw [hsd]; rfl) hlen
        | cons f y => rfl

theorem publishMain_intError
    (e : Env) (v x y z : List Char)
    (hex : e.pyprojectExists = true)
    (hv : versionSearch e.pyproject = some v)
    (hsd : splitDot v = [x, y, z])
    (hz : pyInt z = none) :
    publishMain e = [Ev.report Diag.unexpectedError] := by
  unfold publishMain
  rw [hex]
  simp only [Bool.true_eq_false, if_false, hv, hsd, hz]

/-! Claim theorems. -/

/-- C1: for every version string consisting of exactly three
dot-separated components `X.Y.Z` whose third component parses as an
integer, the increment operation produces the string `X.Y.(Z+1)`: the
major and minor components are passed through unchanged as text (not
renormalized), and the patch component is parsed as an integer and
incremented by exactly one. -/
theorem version_increment_correct (x y z : List Char) (n : Int)
    (hx : '.' ∉ x) (hy : '.' ∉ y) (hz : '.' ∉ z)
    (hn : pyInt z = some n) :
    incrementVersion (x ++ '.' :: (y ++ '.' :: z)) =
      some (x ++ '.' :: (y ++ '.' :: intToChars (n + 1))) := by
  unfold incrementVersion
  rw [splitDot_append_dot _ hx, splitDot_append_dot _ hy, splitDot_no_dot hz]
  simp [hn, mkVersion]

/-- Witness for C1 at the version string `1.2.3`. -/
theorem version_increment_correct_witness :
    ('.' ∉ (['1'] : List Char)) ∧ ('.' ∉ (['2'] : List Char)) ∧
    ('.' ∉ (['3'] : List Char)) ∧ pyInt ['3'] = some 3 ∧
    incrementVersion ("1.2.3".toList) = some ("1.2.4".toList) := by
  refine ⟨by decide, by decide, by decide, by decide, ?_⟩
  have h := version_increment_correct ['1'] ['2'] ['3'] 3
    (by decide) (by decide) (by decide) (by decide)
  exact h

/-- C3: for every extracted version string with fewer or more than three
dot-separated components, the increment step fails with a diagnostic and
the workflow halts with the manifest unmodified: the run is exactly the
format-error report, and in particular nothing is written to the
manifest. -/
theorem invalid_component_count_halts (e : Env) (v : List Char)
    (hex : e.pyprojectExists = true)
    (hv : versionSearch e.pyproject = some v)
    (hlen : (splitDot v).length ≠ 3) :
    publishMain e = [Ev.report Diag.invalidVersionFormat] ∧
    manifestWrites (publishMain e) = [] := by
  have h := publishMain_invalidFormat e v hex hv hlen
  exact ⟨h, by rw [h]; rfl⟩

/-- Witness for C3 at a manifest holding the two-component version
`1.2`. -/
theorem invalid_component_count_halts_witness :
    (mkEnv true ("version = \"1.2\"".toList) 0 true [] 0).pyprojectExists = true ∧
    versionSearch ("version = \"1.2\"".toList) = some ("1.2".toList) ∧
    (splitDot ("1.2".toList)).length ≠ 3 ∧
    publishMain (mkEnv true ("version = \"1.2\"".toList) 0 true [] 0)
      = [Ev.report Diag.invalidVersionFormat] := by
  refine ⟨by decide, by decide, by decide, ?_⟩
  exact (invalid_component_count_halts _ ("1.2".toList) (by decide) (by decide) (by decide)).1

/-- C4: for every extracted version string that does not match the
three-component numeric shape — wrong component count, or exactly three
components with an unparsable third such as `1.2.x` — the workflow
reports a diagnostic (the format-error message for a wrong count, the
top-level error report for the `ValueError` of `int`) and halts
immediately, writing nothing. -/
theorem format_error_halts (e : Env) (v : List Char)
    (hex : e.pyprojectExists = true)
    (hv : versionSearch e.pyproject = some v)
    (hbad : (splitDot v).length ≠ 3 ∨
      ∃ x y z, splitDot v = [x, y, z] ∧ pyInt z = none) :
    (publishMain e = [Ev.report Diag.invalidVersionFormat] ∨
     publishMain e = [Ev.report Diag.unexpectedError]) ∧
    manifestWrites (publishMain e) = [] := by
  rcases hbad with h | ⟨x, y, z, hsd, hz⟩
  · have heq := publishMain_invalidFormat e v hex hv h
    exact ⟨Or.inl heq, by rw [heq]; rfl⟩
  · have heq := publishMain_intError e v x y z hex hv hsd hz
    exact ⟨Or.inr heq, by rw [heq]; rfl⟩

/-- Witness for C4 at a manifest holding the non-numeric version
`1.2.x`. -/
theorem format_error_halts_witness :
    (mkEnv true ("version = \"1.2.x\"".toList) 0 true [] 0).pyprojectExists = true ∧
    versionSearch ("version = \"1.2.x\"".toList) = some ("1.2.x".toList) ∧
    splitDot ("1.2.x".toList) = [['1'], ['2'], ['x']] ∧ pyInt ['x'] = none ∧
    (publishMain (mkEnv true ("version = \"1.2.x\"".toList) 0 true [] 0)
       = [Ev.report Diag.invalidVersionFormat] ∨
     publishMain (mkEnv true ("version = \"1.2.x\"".toList) 0 true [] 0)
       = [Ev.report Diag.unexpectedError]) := by
  refine ⟨by decide, by decide, by decide, by decide, ?_⟩
  exact (format_error_halts _ ("1.2.x".toList) (by decide) (by decide)
    (Or.inr ⟨['1'], ['2'], ['x'], by decide, by decide⟩)).1

/-- C5: in every run of the publisher in which the build command exits
with a non-zero status, the upload command is never invoked. -/
theorem build_failure_blocks_upload (e : Env) (hb : e.buildExit ≠ 0) :
    hasUpload (publishMain e) = false := by
  unfold publishMain
  repeat' split
  all_goals simp_all [hasUpload]

/-- Witness for C5 at a run whose build exits with status 1. -/
theorem build_failure_blocks_upload_witness :
    (mkEnv true ("version = \"1.2.3\"".toList) 1 true ("apiToken = t".toList) 0).buildExit ≠ 0 ∧
    hasUpload (publishMain (mkEnv true ("version = \"1.2.3\"".toList) 1 true ("apiToken = t".toList) 0))
      = false := by
  refine ⟨by decide, ?_⟩
  exact build_failure_blocks_upload _ (by decide)

/-- C6: in every run of the publisher in which the secrets file contains
no match of the credential pattern `apiToken = ...`, the upload command
is never invoked (the workflow halts before the upload step). -/
theorem missing_token_blocks_upload (e : Env)
    (ht : tokenSearch e.dotenv = none) :
    hasUpload (publishMain e) = false := by
  unfold publishMain
  repeat' split
  all_goals simp_all [hasUpload]

/-- Witness for C6 at a secrets file holding no `apiToken` line. -/
theorem missing_token_blocks_upload_witness :
    tokenSearch ("otherKey = 1\n".toList) = none ∧
    hasUpload (publishMain (mkEnv true ("version = \"1.2.3\"".toList) 0 true ("otherKey = 1\n".toList) 0))
      = false := by
  refine ⟨by decide, ?_⟩
  exact missing_token_blocks_upload _ (by decide)

/-- C9: in every run that reaches the persist-version step (the
extraction, increment and substitution hypotheses) and in which a later
step fails — build exits non-zero, the secrets file is absent or holds
no token, or the upload exits non-zero — the manifest retains the
already-incremented content: the run performs exactly one manifest
write, of the substituted content, and no step writes the old version
back. -/
theorem no_version_rollback (e : Env) (v ma mi pa nc : List Char) (n : Int)
    (hex : e.pyprojectExists = true)
    (hv : versionSearch e.pyproject = some v)
    (hsd : splitDot v = [ma, mi, pa])
    (hn : pyInt pa = some n)
    (hsub : pySub (replString (mkVersion ma mi n)) e.pyproject = some nc)
    (hfail : e.buildExit ≠ 0 ∨ e.dotenvExists = false ∨
      tokenSearch e.dotenv = none ∨ e.uploadExit ≠ 0) :
    manifestWrites (publishMain e) = [nc] := by
  unfold publishMain
  rw [hex]
  simp only [Bool.true_eq_false, if_false, hv, hsd, hn, hsub]
  unfold manifestWrites
  repeat' split
  all_goals rfl

/-- Witness for C9 at a run whose upload exits with status 1. -/
theorem no_version_rollback_witness :
    (mkEnv true ("version = \"1.2.3\"\n".toList) 0 true ("apiToken = t".toList) 1).pyprojectExists
      = true ∧
    versionSearch ("version = \"1.2.3\"\n".toList) = some ("1.2.3".toList) ∧
    splitDot ("1.2.3".toList) = [['1'], ['2'], ['3']] ∧
    pyInt ['3'] = some 3 ∧
    pySub (replString (mkVersion ['1'] ['2'] 3)) ("version = \"1.2.3\"\n".toList)
      = some ("version = \"1.2.4\"\n".toList) ∧
    ((mkEnv true ("version = \"1.2.3\"\n".toList) 0 true ("apiToken = t".toList) 1).uploadExit ≠ 0) ∧
    manifestWrites (publishMain (mkEnv true ("version = \"1.2.3\"\n".toList) 0 true ("apiToken = t".toList) 1))
      = [("version = \"1.2.4\"\n".toList)] := by
  refine ⟨by decide, by decide, by decide, by decide, by decide, by decide, ?_⟩
  exact no_version_rollback _ ("1.2.3".toList) ['1'] ['2'] ['3'] _ 3
    (by decide) (by decide) (by decide) (by decide) (by decide)
    (Or.inr (Or.inr (Or.inr (by decide))))

/-- C2, counterexample: for a manifest holding two assignments the
version pattern matches, the persist-version step rewrites both matched
spans — `re.sub` with its default count replaces every match — so bytes
outside the first matched span (the second assignment's quotes and
text) are changed, contrary to the claim that only the first match is
replaced and everything else is preserved byte-for-byte. -/
theorem rewrite_first_only_cex :
    manifestWrites (publishMain (mkEnv true ("version = \"1.2.3\"\nversion = '1.2.3'\n".toList) 0 true ("apiToken = t".toList) 0))
      = [("version = \"1.2.4\"\nversion = \"1.2.4\"\n".toList)] ∧
    ("version = \"1.2.4\"\nversion = \"1.2.4\"\n".toList : List Char)
      ≠ ("version = \"1.2.4\"\nversion = '1.2.3'\n".toList) := by
  constructor
  · decide
  · decide

/-- C2 as amended: for every manifest in which the version pattern has
exactly one match — arbitrary whitespace around the equals sign,
arbitrary (possibly differing) quotes, no match starting anywhere in the
surrounding text — and a backslash-free replacement version, the
persist-version substitution replaces exactly that matched span with the
canonical new assignment text and preserves every byte outside the span
unchanged. -/
theorem rewrite_single_assignment
    (pre post ws1 ws2 v newV : List Char) (q1 q2 : Char)
    (hws1 : ws1.all isReWs = true) (hws2 : ws2.all isReWs = true)
    (hq1 : isQuoteChar q1 = true) (hq2 : isQuoteChar q2 = true)
    (hv : v ≠ []) (hvq : v.all (fun c => !isQuoteChar c) = true)
    (hpre : noMatchThrough pre (assignOf ws1 ws2 q1 q2 v ++ post) = true)
    (hpost : noMatchAll post = true)
    (hnb : '\\' ∉ newV) :
    pySub (replString newV) (pre ++ assignOf ws1 ws2 q1 q2 v ++ post)
      = some (pre ++ replString newV ++ post) :=
  pySub_single_assign pre post ws1 ws2 v newV q1 q2
    hws1 hws2 hq1 hq2 hv hvq hpre hpost hnb

/-- Witness for the amended C2 at a single-assignment manifest with
mismatched quotes and spacing. -/
theorem rewrite_single_assignment_witness :
    ((" ".toList : List Char).all isReWs = true) ∧
    (([] : List Char).all isReWs = true) ∧
    isQuoteChar '"' = true ∧ isQuoteChar '\'' = true ∧
    ("1.2.3".toList : List Char) ≠ [] ∧
    (("1.2.3".toList : List Char).all (fun c => !isQuoteChar c) = true) ∧
    noMatchThrough ("x\n".toList) (assignOf (" ".toList) [] '"' '\'' ("1.2.3".toList) ++ ("\ny".toList)) = true ∧
    noMatchAll ("\ny".toList) = true ∧
    ('\\' ∉ ("1.2.4".toList : List Char)) ∧
    pySub (replString ("1.2.4".toList))
        (("x\n".toList) ++ assignOf (" ".toList) [] '"' '\'' ("1.2.3".toList) ++ ("\ny".toList))
      = some (("x\n".toList) ++ replString ("1.2.4".toList) ++ ("\ny".toList)) := by
  refine ⟨by decide, by decide, by decide, by decide, by decide, by decide, by decide,
    by decide, by decide, ?_⟩
  exact rewrite_single_assignment ("x\n".toList) ("\ny".toList) (" ".toList) [] ("1.2.3".toList)
    ("1.2.4".toList) '"' '\'' (by decide) (by decide) (by decide) (by decide) (by decide)
    (by decide) (by decide) (by decide) (by decide)

/-- C10, counterexample: for a manifest whose version assignment the
extraction pattern matches but whose version text contains a backslash
followed by a digit, the rewrite step does not emit any assignment at
all: the replacement template `version = "\1.2.4"` contains the group
reference `\1`, invalid for the group-free substitution pattern, so
`re.sub` raises, the top-level handler reports the error, and the run
ends with no manifest write. -/
theorem canonical_emission_cex :
    versionSearch ("version='\\1.2.3'".toList) = some ("\\1.2.3".toList) ∧
    publishMain (mkEnv true ("version='\\1.2.3'".toList) 0 true ("apiToken = t".toList) 0)
      = [Ev.report Diag.unexpectedError] ∧
    manifestWrites (publishMain (mkEnv true ("version='\\1.2.3'".toList) 0 true ("apiToken = t".toList) 0))
      = [] := by
  refine ⟨by decide, by decide, by decide⟩

/-- C10 as amended: for every manifest whose single version assignment
the extraction pattern matches — whatever its original quoting (single,
double, or a mismatched pair) and whatever its spacing around the equals
sign — provided the major and minor components contain no backslash, the
rewrite step emits the assignment in the canonical form
`version = "X.Y.Z"` with double quotes and single spaces: the written
manifest holds exactly the canonical new assignment in place of the
matched span. -/
theorem canonical_emission
    (e : Env) (pre post ws1 ws2 ma mi pa : List Char) (q1 q2 : Char) (n : Int)
    (hex : e.pyprojectExists = true)
    (hcontent : e.pyproject = pre ++ assignOf ws1 ws2 q1 q2 (ma ++ '.' :: (mi ++ '.' :: pa)) ++ post)
    (hws1 : ws1.all isReWs = true) (hws2 : ws2.all isReWs = true)
    (hq1 : isQuoteChar q1 = true) (hq2 : isQuoteChar q2 = true)
    (hvq : (ma ++ '.' :: (mi ++ '.' :: pa)).all (fun c => !isQuoteChar c) = true)
    (hma : '.' ∉ ma) (hmi : '.' ∉ mi) (hpa : '.' ∉ pa)
    (hnbma : '\\' ∉ ma) (hnbmi : '\\' ∉ mi)
    (hn : pyInt pa = some n)
    (hpre : noMatchThrough pre (assignOf ws1 ws2 q1 q2 (ma ++ '.' :: (mi ++ '.' :: pa)) ++ post) = true)
    (hpost : noMatchAll post = true) :
    ∃ rest, publishMain e =
      Ev.writeManifest (pre ++ replString (mkVersion ma mi n) ++ post) :: rest := by
  have hvne : (ma ++ '.' :: (mi ++ '.' :: pa)) ≠ [] := by simp
  have hm := matchVersionAt_assignOf ws1 ws2 q1 q2 (ma ++ '.' :: (mi ++ '.' :: pa)) post
    hws1 hws2 hq1 hq2 hvne hvq
  have hsearch : versionSearch e.pyproject = some (ma ++ '.' :: (mi ++ '.' :: pa)) := by
    rw [hcontent, List.append_assoc, versionSearch_append_noMatchThrough hpre]
    exact versionSearch_match_head (assignOf_ne_nil ws1 ws2 q1 q2 _) hm
  have hsd : splitDot (ma ++ '.' :: (mi ++ '.' :: pa)) = [ma, mi, pa] := by
    rw [splitDot_append_dot _ hma, splitDot_append_dot _ hmi, splitDot_no_dot hpa]
  have hsub : pySub (replString (mkVersion ma mi n)) e.pyproject
      = some (pre ++ replString (mkVersion ma mi n) ++ post) := by
    rw [hcontent]
    exact pySub_single_assign pre post ws1 ws2 _ _ q1 q2 hws1 hws2 hq1 hq2 hvne hvq
      hpre hpost (mkVersion_ne_backslash n hnbma hnbmi)
  exact publishMain_write_eq e _ ma mi pa n _ hex hsearch hsd hn hsub

/-- Witness for the amended C10 at a single-quoted, unevenly spaced
assignment, rewritten in canonical double-quoted form. -/
theorem canonical_emission_witness :
    (mkEnv true ("x\nversion  ='1.2.3'\ny".toList) 0 true ("apiToken = t".toList) 0).pyprojectExists
      = true ∧
    (mkEnv true ("x\nversion  ='1.2.3'\ny".toList) 0 true ("apiToken = t".toList) 0).pyproject
      = ("x\n".toList) ++ assignOf ("  ".toList) [] '\'' '\'' (['1'] ++ '.' :: (['2'] ++ '.' :: ['3'])) ++ ("\ny".toList) ∧
    pyInt ['3'] = some 3 ∧
    (∃ rest, publishMain (mkEnv true ("x\nversion  ='1.2.3'\ny".toList) 0 true ("apiToken = t".toList) 0)
      = Ev.writeManifest (("x\n".toList) ++ replString (mkVersion ['1'] ['2'] 3) ++ ("\ny".toList)) :: rest) := by
  refine ⟨by decide, by decide, by decide, ?_⟩
  exact canonical_emission _ ("x\n".toList) ("\ny".toList) ("  ".toList) [] ['1'] ['2'] ['3']
    '\'' '\'' 3 (by decide) (by decide) (by decide) (by decide) (by decide) (by decide)
    (by decide) (by decide) (by decide) (by decide) (by decide) (by decide) (by decide)
    (by decide) (by decide)

/-- C7: for every source image of category `icon` whose longer dimension
exceeds 512, the converter downscales it so the longer declared
dimension equals 512, preserving aspect ratio up to rounding of the
shorter side (stated as the two-sided bound
`|2·L·s - 2·512·S| ≤ L` for original long and short sides `L`, `S` and
output short side `s`, except when the short side clamps to 1); and for
every source image with both dimensions at most 512, the SVG declares
the original dimensions unchanged, whatever the category. -/
theorem icon_resize_dims (img : Img) :
    (512 < max img.width img.height →
      max (png_to_svg iconCat img).width (png_to_svg iconCat img).height = 512 ∧
      ((png_to_svg iconCat img).width = 1 ∨ (png_to_svg iconCat img).height = 1 ∨
        (2 * max img.width img.height *
            min (png_to_svg iconCat img).width (png_to_svg iconCat img).height ≤
            2 * 512 * min img.width img.height + max img.width img.height ∧
          2 * 512 * min img.width img.height ≤
            2 * max img.width img.height *
              min (png_to_svg iconCat img).width (png_to_svg iconCat img).height +
              max img.width img.height))) ∧
    (img.width ≤ 512 ∧ img.height ≤ 512 →
      ∀ cat, (png_to_svg cat img).width = img.width ∧
        (png_to_svg cat img).height = img.height) := by
  constructor
  · intro hbig
    have hwproj : (png_to_svg iconCat img).width = (thumbnailSize 512 img.width img.height).1 := by
      simp [png_to_svg, hbig]
    have hhproj : (png_to_svg iconCat img).height = (thumbnailSize 512 img.width img.height).2 := by
      simp [png_to_svg, hbig]
    rw [hwproj, hhproj]
    have hno : ¬(img.width ≤ 512 ∧ img.height ≤ 512) := by omega
    unfold thumbnailSize
    rw [if_neg hno]
    by_cases hcase : img.height ≤ img.width
    · rw [if_pos hcase]
      simp only [fst_pair, snd_pair]
      have hW : 512 < img.width := by omega
      have hdm := Nat.div_add_mod (2 * img.height * 512 + img.width) (2 * img.width)
      have hmod := Nat.mod_lt (2 * img.height * 512 + img.width) (y := 2 * img.width) (by omega)
      have hq513 : (2 * img.height * 512 + img.width) / (2 * img.width) < 513 := by
        rw [Nat.div_lt_iff_lt_mul (by omega)]
        linarith
      generalize hqq : (2 * img.height * 512 + img.width) / (2 * img.width) = q at hdm hq513 ⊢
      generalize hrr : (2 * img.height * 512 + img.width) % (2 * img.width) = r at hdm hmod
      have hmaxw : max img.width img.height = img.width := by omega
      have hminw : min img.width img.height = img.height := by omega
      rw [hmaxw, hminw]
      by_cases hq0 : q = 0
      · subst hq0
        exact ⟨by omega, Or.inr (Or.inl (by omega))⟩
      · have hq2 : 1 ≤ q := by omega
        have hmaxq : max 512 (max 1 q) = 512 := by omega
        have hminq : min 512 (max 1 q) = q := by omega
        rw [hmaxq, hminq]
        refine ⟨rfl, Or.inr (Or.inr ⟨by nlinarith, by nlinarith⟩)⟩
    · rw [if_neg hcase]
      simp only [fst_pair, snd_pair]
      have hH : 512 < img.height := by omega
      have hdm := Nat.div_add_mod (2 * img.width * 512 + img.height) (2 * img.height)
      have hmod := Nat.mod_lt (2 * img.width * 512 + img.height) (y := 2 * img.height) (by omega)
      have hq513 : (2 * img.width * 512 + img.height) / (2 * img.height) < 513 := by
        rw [Nat.div_lt_iff_lt_mul (by omega)]
        linarith
      generalize hqq : (2 * img.width * 512 + img.height) / (2 * img.height) = q at hdm hq513 ⊢
      generalize hrr : (2 * img.width * 512 + img.height) % (2 * img.height) = r at hdm hmod
      have hmaxw : max img.width img.height = img.height := by omega
      have hminw : min img.width img.height = img.width := by omega
      rw [hmaxw, hminw]
      by_cases hq0 : q = 0
      · subst hq0
        exact ⟨by omega, Or.inl (by omega)⟩
      · have hq2 : 1 ≤ q := by omega
        have hmaxq : max (max 1 q) 512 = 512 := by omega
        have hminq : min (max 1 q) 512 = q := by omega
        rw [hmaxq, hminq]
        refine ⟨rfl, Or.inr (Or.inr ⟨by nlinarith, by nlinarith⟩)⟩
  · intro hsmall cat
    have hcond : ¬(cat = iconCat ∧ 512 < max img.width img.height) := by
      intro hcond
      omega
    have hps : png_to_svg cat img =
        { width := img.width, height := img.height,
          payload := b64Encode (pngBytes
            { width := img.width, height := img.height, pixels := img.pixels }) } := by
      unfold png_to_svg
      rw [if_neg hcond]
      rfl
    rw [hps]
    exact ⟨rfl, rfl⟩

/-- Witness for C7: a 1024-by-768 icon is declared 512-by-384 (longer
side 512, aspect preserved), and a 200-by-100 below-threshold image is
declared unchanged. -/
theorem icon_resize_dims_witness :
    (512 < max 1024 768 ∧
      max (png_to_svg iconCat { width := 1024, height := 768, pixels := [] }).width
        (png_to_svg iconCat { width := 1024, height := 768, pixels := [] }).height = 512) ∧
    ((png_to_svg iconCat { width := 1024, height := 768, pixels := [] }).width = 512 ∧
      (png_to_svg iconCat { width := 1024, height := 768, pixels := [] }).height = 384) ∧
    (((200 : Nat) ≤ 512 ∧ (100 : Nat) ≤ 512) ∧
      (png_to_svg ("splash".toList) { width := 200, height := 100, pixels := [] }).width = 200 ∧
      (png_to_svg ("splash".toList) { width := 200, height := 100, pixels := [] }).height = 100) := by
  refine ⟨⟨by decide, ?_⟩, ⟨by decide, by decide⟩, ⟨by decide, ?_, ?_⟩⟩
  · exact ((icon_resize_dims { width := 1024, height := 768, pixels := [] }).1 (by decide)).1
  · exact ((icon_resize_dims { width := 200, height := 100, pixels := [] }).2
      (by decide) ("splash".toList)).1
  · exact ((icon_resize_dims { width := 200, height := 100, pixels := [] }).2
      (by decide) ("splash".toList)).2

/-- C8: for every generated SVG, decoding its embedded base64 payload
yields a valid PNG byte stream whose decoded pixel dimensions equal the
width and height the SVG declares: the payload encodes the
re-serialized, possibly resized image whose dimensions are the ones
written into the SVG. -/
theorem svg_payload_roundtrip (cat : List Char) (img : Img)
    (hpx : ∀ b ∈ img.pixels, b < 256)
    (hw : img.width < 4294967296) (hh : img.height < 4294967296) :
    ∃ bytes img2,
      b64Decode (png_to_svg cat img).payload = some bytes ∧
      pngParse bytes = some img2 ∧
      img2.width = (png_to_svg cat img).width ∧
      img2.height = (png_to_svg cat img).height := by
  by_cases hcond : cat = iconCat ∧ 512 < max img.width img.height
  · have h512 := thumbnailSize_le512 (w := img.width) (h := img.height) (by omega)
    have hps : png_to_svg cat img =
        { width := (thumbnailSize 512 img.width img.height).1,
          height := (thumbnailSize 512 img.width img.height).2,
          payload := b64Encode (pngBytes
            { width := (thumbnailSize 512 img.width img.height).1,
              height := (thumbnailSize 512 img.width img.height).2,
              pixels := img.pixels }) } := by
      simp [png_to_svg, hcond.1, hcond.2, resamplePixels]
    refine ⟨pngBytes
        { width := (thumbnailSize 512 img.width img.height).1,
          height := (thumbnailSize 512 img.width img.height).2,
          pixels := img.pixels },
      { width := (thumbnailSize 512 img.width img.height).1,
        height := (thumbnailSize 512 img.width img.height).2,
        pixels := img.pixels }, ?_, ?_, ?_, ?_⟩
    · rw [hps]
      exact b64_roundtrip _ (pngBytes_bytes_lt _ hpx)
    · refine pngParse_pngBytes _ ?_ ?_
      · show (thumbnailSize 512 img.width img.height).1 < 4294967296
        omega
      · show (thumbnailSize 512 img.width img.height).2 < 4294967296
        omega
    · rw [hps]
    · rw [hps]
  · have hps : png_to_svg cat img =
        { width := img.width, height := img.height,
          payload := b64Encode (pngBytes
            { width := img.width, height := img.height, pixels := img.pixels }) } := by
      unfold png_to_svg
      rw [if_neg hcond]
      rfl
    refine ⟨pngBytes { width := img.width, height := img.height, pixels := img.pixels },
      { width := img.width, height := img.height, pixels := img.pixels }, ?_, ?_, ?_, ?_⟩
    · rw [hps]
      exact b64_roundtrip _ (pngBytes_bytes_lt _ hpx)
    · refine pngParse_pngBytes _ ?_ ?_
      · show img.width < 4294967296
        omega
      · show img.height < 4294967296
        omega
    · rw [hps]
    · rw [hps]

/-- Witness for C8 at a one-pixel icon image. -/
theorem svg_payload_roundtrip_witness :
    (∀ b ∈ ([0, 0, 0, 255] : List Nat), b < 256) ∧ (1 : Nat) < 4294967296 ∧
    (∃ bytes img2,
      b64Decode (png_to_svg iconCat { width := 1, height := 1, pixels := [0, 0, 0, 255] }).payload
        = some bytes ∧
      pngParse bytes = some img2 ∧
      img2.width = (png_to_svg iconCat { width := 1, height := 1, pixels := [0, 0, 0, 255] }).width ∧
      img2.height = (png_to_svg iconCat { width := 1, height := 1, pixels := [0, 0, 0, 255] }).height) := by
  refine ⟨by decide, by decide, ?_⟩
  exact svg_payload_roundtrip iconCat { width := 1, height := 1, pixels := [0, 0, 0, 255] }
    (by decide) (by decide) (by decide)

end PubSpec
